import Mathlib

/-!
Verification of the Clutch-directory scraper (`src/script.py`).

This file shallowly embeds the deduplication, validation, URL-normalization,
persistence, retry and pagination logic of `script.py` and settles the frozen
claims about it.  Pure Python functions become Lean functions on `String` /
`List Char`; the `asyncio` concurrency of the fetch workers is modelled as an
interleaving of the atomic (await-free) segments of each worker; the pagination
loop is modelled as a step function over an abstract page environment.
-/

namespace Scraper

/-! ## ASCII / Python string primitives -/

/-- ASCII lower-casing of one character, as Python `str.lower` acts on ASCII. -/
def lowerChar (c : Char) : Char :=
  if 'A' ≤ c ∧ c ≤ 'Z' then Char.ofNat (c.toNat + 32) else c

def isAsciiAlpha (c : Char) : Bool :=
  ('A' ≤ c && c ≤ 'Z') || ('a' ≤ c && c ≤ 'z')

def isAsciiDigit (c : Char) : Bool :=
  '0' ≤ c && c ≤ '9'

/-- Python `str.lower` (ASCII fragment). -/
def pyLower (s : String) : String :=
  String.mk (s.toList.map lowerChar)

/-- Whitespace recognized by Python `str.strip` (ASCII fragment:
space, tab, newline, carriage return, vertical tab, form feed). -/
def isPyWhitespace (c : Char) : Bool :=
  c == ' ' || c == '\t' || c == '\n' || c == '\r' ||
  c == Char.ofNat 11 || c == Char.ofNat 12

/-- Python `str.strip()`. -/
def pyStrip (s : String) : String :=
  String.mk (((s.toList.dropWhile isPyWhitespace).reverse.dropWhile isPyWhitespace).reverse)

/-- True when the first list starts the second (Python `str.startswith`). -/
def leadsL : List Char → List Char → Bool
  | [], _ => true
  | _ :: _, [] => false
  | p :: ps, c :: cs => p == c && leadsL ps cs

def leads (pat s : String) : Bool :=
  leadsL pat.toList s.toList

/-- Substring containment (Python `pat in s`). -/
def containsSubL : List Char → List Char → Bool
  | [], pat => pat.isEmpty
  | c :: rest, pat => leadsL pat (c :: rest) || containsSubL rest pat

def containsSub (s pat : String) : Bool :=
  containsSubL s.toList pat.toList

/-- Split at the first occurrence of `c` (Python `s.split(c, 1)` when `c ∈ s`). -/
def splitFirstChar (c : Char) : List Char → Option (List Char × List Char)
  | [] => none
  | x :: xs =>
    if x == c then some ([], xs)
    else
      match splitFirstChar c xs with
      | some (a, b) => some (x :: a, b)
      | none => none

/-- Index of the last occurrence of `c` (Python `s.rfind(c)`), `none` if absent. -/
def rfindIdx (c : Char) (cs : List Char) : Option Nat :=
  match cs with
  | [] => none
  | x :: xs =>
    match rfindIdx c xs with
    | some i => some (i + 1)
    | none => if x == c then some 0 else none

/-- Index of the first occurrence of `c` at position ≥ `start`
(Python `s.find(c, start)`), `none` if absent. -/
def findIdxFrom (c : Char) (start : Nat) (cs : List Char) : Option Nat :=
  match List.findIdx? (· == c) (cs.drop start) with
  | some i => some (start + i)
  | none => none

/-! ## The `urllib.parse` fragment used by the scraper

`urlparseE` embeds CPython `urlparse` for the fields the scraper reads
(scheme, netloc, path, params, query, fragment): optional `scheme:` split,
`//netloc` split up to the first of `/?#`, the mismatched-IPv6-bracket
`ValueError` (modelled as `Except.error`), then fragment, query and params
splitting.  `urlunparse` embeds CPython `urlunparse`/`urlunsplit`. -/

def schemeChar (c : Char) : Bool :=
  isAsciiAlpha c || isAsciiDigit c || c == '+' || c == '-' || c == '.'

/-- Netloc runs to the first of `/`, `?`, `#`; the delimiter stays in the rest. -/
def splitNetloc : List Char → List Char × List Char
  | [] => ([], [])
  | x :: xs =>
    if x == '/' || x == '?' || x == '#' then ([], x :: xs)
    else
      let r := splitNetloc xs
      (x :: r.1, r.2)

structure UrlParts where
  scheme : String
  netloc : String
  path : String
  params : String
  query : String
  fragment : String
deriving Repr, DecidableEq

/-- CPython `_splitparams`: split `;params` off a path, but only looking after
the last `/` when the path contains one. -/
def splitParams (cs : List Char) : List Char × List Char :=
  if cs.contains '/' then
    match rfindIdx '/' cs with
    | some r =>
      match findIdxFrom ';' r cs with
      | some i => (cs.take i, cs.drop (i + 1))
      | none => (cs, [])
    | none => (cs, [])
  else
    match List.findIdx? (· == ';') cs with
    | some i => (cs.take i, cs.drop (i + 1))
    | none => (cs, [])

/-- CPython `urlparse`; `Except.error ()` models the `ValueError` raised on a
netloc with a mismatched IPv6 bracket. -/
def urlparseE (url : String) : Except Unit UrlParts :=
  let cs := url.toList
  let schemeRest : List Char × List Char :=
    match List.findIdx? (· == ':') cs with
    | some i =>
      if 0 < i && (match cs with | c :: _ => isAsciiAlpha c | [] => false)
          && (cs.take i).all schemeChar then
        ((cs.take i).map lowerChar, cs.drop (i + 1))
      else ([], cs)
    | none => ([], cs)
  let scheme := schemeRest.1
  let netlocRest : List Char × List Char :=
    match schemeRest.2 with
    | '/' :: '/' :: r => splitNetloc r
    | r => ([], r)
  let netloc := netlocRest.1
  if (netloc.contains '[' ∧ ¬ netloc.contains ']') ∨
     (netloc.contains ']' ∧ ¬ netloc.contains '[') then
    .error ()
  else
    let fragSplit : List Char × List Char :=
      match splitFirstChar '#' netlocRest.2 with
      | some (a, b) => (a, b)
      | none => (netlocRest.2, [])
    let querySplit : List Char × List Char :=
      match splitFirstChar '?' fragSplit.1 with
      | some (a, b) => (a, b)
      | none => (fragSplit.1, [])
    let pathParams : List Char × List Char :=
      if querySplit.1.contains ';' then splitParams querySplit.1
      else (querySplit.1, [])
    .ok ⟨String.mk scheme, String.mk netloc, String.mk pathParams.1,
         String.mk pathParams.2, String.mk querySplit.2, String.mk fragSplit.2⟩

/-- CPython `urlunparse` ∘ `urlunsplit`. -/
def urlunparse (p : UrlParts) : String :=
  let u := if p.params ≠ "" then p.path ++ ";" ++ p.params else p.path
  let u :=
    if p.netloc ≠ "" ∨ leads "//" u then
      "//" ++ p.netloc ++ (if u ≠ "" ∧ ¬ leads "/" u then "/" ++ u else u)
    else u
  let u := if p.scheme ≠ "" then p.scheme ++ ":" ++ u else u
  let u := if p.query ≠ "" then u ++ "?" ++ p.query else u
  if p.fragment ≠ "" then u ++ "#" ++ p.fragment else u

def endsWithSlash (s : String) : Bool :=
  match s.toList.getLast? with
  | some c => c == '/'
  | none => false

def dropLastChar (s : String) : String :=
  String.mk s.toList.dropLast

/-- Embeds `clean_url` of `script.py`: strip query and fragment, then a trailing slash;
on a parse error the original URL is returned (the `except` branch). -/
def clean_url (url : String) : String :=
  if url = "" then url
  else
    match urlparseE url with
    | .error _ => url
    | .ok p =>
      let c := urlunparse { p with query := "", fragment := "" }
      if endsWithSlash c then dropLastChar c else c

/-- Prefix of `s` before the first `.` — Python `s.split('.')[0]`. -/
def takeBeforeDot (s : String) : String :=
  String.mk (s.toList.takeWhile (· ≠ '.'))

/-- Strip a leading `www.` label (Python `domain[4:]` after `startswith`). -/
def stripWww (s : String) : String :=
  if leads "www." s then String.mk (s.toList.drop 4) else s

/-- Embeds `extract_business_name_from_url` of `script.py`: empty input yields `""`;
otherwise the domain is `parsed.netloc or parsed.path`, a leading `www.` is
stripped and everything from the first `.` on is dropped; the `except` branch
returns the input URL itself. -/
def extract_business_name_from_url (url : String) : String :=
  if url = "" then ""
  else
    match urlparseE url with
    | .error _ => url
    | .ok p =>
      let domain := if p.netloc ≠ "" then p.netloc else p.path
      takeBeforeDot (stripWww domain)

/-! ## Validators (`is_valid_email`, `is_valid_phone`) -/

/-- The fixed denylist of `script.py` `is_valid_email` (`invalid_patterns`). -/
def invalid_email_patterns : List String :=
  ["noreply", "no-reply", "example", "test", ".png", ".jpg",
   "sentry",
   "notifications@", "alert@", "system@",
   "donotreply", "do-not-reply",
   "postmaster@", "mailer-daemon@",
   "wordpress@", "wp@",
   "webmaster@", "administrator@", "admin@"]

/-- Python `email.split('@')[0]`. -/
def email_local_part (email : String) : String :=
  String.mk (email.toList.takeWhile (· ≠ '@'))

def isHexLowerChar (c : Char) : Bool :=
  isAsciiDigit c || ('a' ≤ c && c ≤ 'f')

/-- Character class `[A-Za-z0-9._%+-]` of the email regex. -/
def emailLocalChar (c : Char) : Bool :=
  isAsciiAlpha c || isAsciiDigit c || c == '.' || c == '_' ||
  c == '%' || c == '+' || c == '-'

/-- Character class `[A-Za-z0-9.-]`. -/
def emailDomainChar (c : Char) : Bool :=
  isAsciiAlpha c || isAsciiDigit c || c == '.' || c == '-'

/-- Character class `[A-Z|a-z]` — the `|` is a literal member of the class. -/
def emailTldChar (c : Char) : Bool :=
  isAsciiAlpha c || c == '|'

def emailTldOk (t : List Char) : Bool :=
  2 ≤ t.length && t.all emailTldChar

/-- Matcher for `[A-Za-z0-9.-]+\.[A-Z|a-z]{2,}` anchored to the end: the flag
records whether at least one domain character was consumed before the dot. -/
def emailDomTld : Bool → List Char → Bool
  | _, [] => false
  | seen, c :: rest =>
    (c == '.' && seen && emailTldOk rest) ||
    (emailDomainChar c && emailDomTld true rest)

/-- The full email pattern matched to the end of
the character list; since none of the classes admits `@`, the local part is
exactly the prefix before the first `@`. -/
def email_regex_core (cs : List Char) : Bool :=
  match splitFirstChar '@' cs with
  | none => false
  | some (loc, rest) =>
    (!loc.isEmpty) && loc.all emailLocalChar && emailDomTld false rest

/-- Anchored match as Python performs it: the end anchor also matches just
before a single trailing newline. -/
def email_regex_match (s : String) : Bool :=
  let cs := s.toList
  email_regex_core cs ||
  (match cs.getLast? with
   | some c => c == '\n' && email_regex_core cs.dropLast
   | none => false)

/-- Embeds `is_valid_email` of `script.py`. -/
def is_valid_email (email : String) : Bool :=
  if email = "" || !(email.toList.contains '@') then false
  else if invalid_email_patterns.any (fun p => containsSub (pyLower email) p) then false
  else if 32 ≤ (email_local_part email).length ||
          (8 ≤ (email_local_part email).length &&
           (pyLower (email_local_part email)).toList.all isHexLowerChar) then false
  else email_regex_match email

/-- The substitution step of the phone validator: keep only digits and `+`. -/
def phone_filter (phone : String) : List Char :=
  phone.toList.filter (fun c => isAsciiDigit c || c == '+')

/-- The repeated-digit pattern: a digit repeated ten or more times, and
nothing else. -/
def allSameDigitTen (cs : List Char) : Bool :=
  match cs with
  | [] => false
  | c :: rest => isAsciiDigit c && 9 ≤ rest.length && rest.all (· == c)

/-- The area-code rejection of `is_valid_phone`: first digit `0` or `1`,
shape `X00`/`X11`, or the literal `123`. -/
def areaCodeRejectedHead (area : List Char) : Bool :=
  area.head? == some '0' || area.head? == some '1'

def areaCodeRejectedRest (area : List Char) : Bool :=
  area.drop 1 == ['0', '0'] || area.drop 1 == ['1', '1'] || area == ['1', '2', '3']

def areaCodeRejected (area : List Char) : Bool :=
  areaCodeRejectedHead area || areaCodeRejectedRest area

/-- Body of `is_valid_phone` after stripping a leading `+` — length window,
degenerate-sequence regexes, then the US area-code rules. -/
def phone_checks (isIntl : Bool) (digits_only : List Char) : Bool :=
  if isIntl && (decide (digits_only.length < 10) || decide (15 < digits_only.length)) then false
  else if !isIntl && (decide (digits_only.length < 10) || decide (11 < digits_only.length)) then false
  else if !digits_only.isEmpty && digits_only.all (· == '0') then false
  else if !digits_only.isEmpty && digits_only.all (· == '1') then false
  else if digits_only == "1234567890".toList then false
  else if allSameDigitTen digits_only then false
  else if digits_only == "12345678901".toList then false
  else if digits_only.length == 10 then
    let area := digits_only.take 3
    if areaCodeRejectedHead area then false
    else if areaCodeRejectedRest area then false
    else true
  else if digits_only.length == 11 && digits_only.head? == some '1' then
    let area := (digits_only.drop 1).take 3
    if areaCodeRejectedHead area then false
    else if areaCodeRejectedRest area then false
    else true
  else true

/-- Embeds `is_valid_phone` of `script.py`. -/
def is_valid_phone (phone : String) : Bool :=
  if phone = "" then false
  else
    let clean_phone := phone_filter phone
    let isIntl : Bool := clean_phone.head? == some '+'
    phone_checks isIntl (if isIntl then clean_phone.drop 1 else clean_phone)

/-! ## Persistence (`scrape_business_info` + in-run dedup set) -/

/-- One persisted CSV row (`website_url`, `business_name`, `email`, `phone`). -/
structure Row where
  website_url : String
  business_name : String
  email : String
  phone : String
deriving Repr, DecidableEq

/-- The run-scoped `unique_businesses` set (modelled as a list with guarded
insertion) plus the rows appended to the CSV sink so far. -/
structure SinkState where
  unique_businesses : List String
  rows : List Row
deriving Repr, DecidableEq

/-- Embeds `scrape_business_info` of `script.py`, with the page-extraction results
(`extract_emails` / `extract_phones`, each at most one element) passed in and
with `extractRaises` injecting an exception at the extraction step: the
surrounding `except` then returns `0`, after the dedup key was already added.
The derived name keys the dedup check; the row is appended and flushed only on
the fresh-key path. -/
def scrape_business_info_exc (url : String) (emails phones : List String)
    (extractRaises : Bool) (st : SinkState) : Nat × SinkState :=
  let clean_website_url := clean_url url
  let business_name := extract_business_name_from_url clean_website_url
  if pyStrip business_name = "" then (0, st)
  else if business_name ∈ st.unique_businesses then (0, st)
  else
    let st' := { st with unique_businesses := business_name :: st.unique_businesses }
    if extractRaises then (0, st')
    else
      let email := (emails.head?).getD ""
      let phone := (phones.head?).getD ""
      (1, { st' with
            rows := st'.rows ++ [⟨clean_website_url, business_name, email, phone⟩] })

/-- The persist operation `scrape_business_info` on the non-raising path. -/
def scrape_business_info (url : String) (emails phones : List String)
    (st : SinkState) : Nat × SinkState :=
  scrape_business_info_exc url emails phones false st

/-! ## End-of-run compaction (`cleanup_csv_duplicates`) -/

/-- The compaction key: `row['business_name'].lower().strip()`. -/
def cleanup_key (s : String) : String :=
  pyStrip (pyLower s)

def keyIs (k : String) (r : Row) : Bool :=
  cleanup_key r.business_name == k

/-- The first-occurrence filter of `cleanup_csv_duplicates`, threading the
`seen_businesses` set. -/
def cleanupAux (seen : List String) : List Row → List Row
  | [] => []
  | r :: rest =>
    if cleanup_key r.business_name ∈ seen then cleanupAux seen rest
    else r :: cleanupAux (cleanup_key r.business_name :: seen) rest

/-- Embeds `cleanup_csv_duplicates` of `script.py` applied to the parsed rows. -/
def cleanup_csv_duplicates (rows : List Row) : List Row :=
  cleanupAux [] rows

/-! ## Concurrent persistence (`process_business_links` + `asyncio`)

`process_business_links` runs one `process_single_business` task per link under
an `asyncio.Semaphore`.  Inside `scrape_business_info` the only suspension
points between the dedup check and the CSV append are the
`await extract_emails` / `await extract_phones` calls, so each worker has a persist that
splits into two atomic segments: the synchronous check-and-insert
(URL cleaning, name derivation, blank check, membership check, set insertion)
and, after the awaits, the synchronous row append + flush.  A run is an
arbitrary interleaving of these segments across workers. -/

/-- Program counter of the persist operation of one fetch worker. -/
inductive TaskPC where
  | ready
  | writing
  | finished (entries : Nat)
deriving Repr, DecidableEq

/-- One fetch worker: its (already resolved) URL, its extraction results, and
where its persist operation currently stands. -/
structure WTask where
  url : String
  email : String
  phone : String
  pc : TaskPC
deriving Repr, DecidableEq

/-- Shorthand for the dedup key derived from the candidate of a worker. -/
def nameOf (t : WTask) : String :=
  extract_business_name_from_url (clean_url t.url)

structure RunState where
  tasks : List WTask
  sink : SinkState
deriving Repr, DecidableEq

/-- Run the next atomic segment of one worker against the shared sink. -/
def stepTask (sink : SinkState) (t : WTask) : WTask × SinkState :=
  match t.pc with
  | .ready =>
    let n := nameOf t
    if pyStrip n = "" then ({ t with pc := .finished 0 }, sink)
    else if n ∈ sink.unique_businesses then ({ t with pc := .finished 0 }, sink)
    else ({ t with pc := .writing },
          { sink with unique_businesses := n :: sink.unique_businesses })
  | .writing =>
    let cu := clean_url t.url
    let n := extract_business_name_from_url cu
    ({ t with pc := .finished 1 },
     { sink with rows := sink.rows ++ [⟨cu, n, t.email, t.phone⟩] })
  | .finished _ => (t, sink)

/-- Scheduler step: run the next segment of worker `i` (no-op if out of range). -/
def stepRun (s : RunState) (i : Nat) : RunState :=
  match s.tasks.get? i with
  | none => s
  | some t =>
    let r := stepTask s.sink t
    { tasks := s.tasks.set i r.1, sink := r.2 }

/-- Execute a whole interleaving (a list of worker indices). -/
def execRun (s : RunState) (sched : List Nat) : RunState :=
  sched.foldl stepRun s

def isWin (t : WTask) : Bool :=
  match t.pc with
  | .finished e => e == 1
  | _ => false

def isLoss (t : WTask) : Bool :=
  match t.pc with
  | .finished e => e == 0
  | _ => false

def isWriting (t : WTask) : Bool :=
  match t.pc with
  | .writing => true
  | _ => false

def isDone (t : WTask) : Bool :=
  match t.pc with
  | .finished _ => true
  | _ => false

/-- The interleaving invariant behind the same-key persist race: every worker
targets key `n`; worker states are the four reachable ones; at most one worker
is past the check-and-insert without having lost; the key is in the dedup set
exactly when some worker is past it; a worker can only have lost after the key
was inserted; and the sink has gained exactly one row per finished winner. -/
def C2Inv (n : String) (base : Nat) (s : RunState) : Prop :=
  (∀ t ∈ s.tasks, nameOf t = n) ∧
  (∀ t ∈ s.tasks,
    t.pc = .ready ∨ t.pc = .writing ∨ t.pc = .finished 0 ∨ t.pc = .finished 1) ∧
  s.tasks.countP isWriting + s.tasks.countP isWin ≤ 1 ∧
  (n ∈ s.sink.unique_businesses ↔ 1 ≤ s.tasks.countP isWriting + s.tasks.countP isWin) ∧
  (1 ≤ s.tasks.countP isLoss → n ∈ s.sink.unique_businesses) ∧
  s.sink.rows.length = base + s.tasks.countP isWin

/-! ## Per-entity retry policy (`process_single_business`) -/

/-- Outcome of one attempt of the `process_single_business` retry loop:
the navigation times out, fails for another reason, lands on a Cloudflare
challenge (skip), or succeeds and scrapes `entries` rows. -/
inductive AttemptResult where
  | navTimeout
  | navOther
  | cloudflare
  | scraped (entries : Nat)
deriving Repr, DecidableEq

/-- Navigation timeout of attempt `rc`: 30000 first, 45000 on retries. -/
def navTimeoutFor (rc : Nat) : Nat :=
  if rc = 0 then 30000 else 45000

/-- The `while retry_count <= max_retries` loop of `process_single_business`
with `max_retries = 2`, driven by the per-attempt outcome of the environment.
Returns `(entries, timeouts used per navigation attempt, backoff sleeps)`.
A timeout-classified failure with `retry_count < 2` sleeps and retries with
the bumped timeout; any other failure, a Cloudflare detection, or success
leaves the loop at once. -/
def navLoop (env : Nat → AttemptResult) : Nat → Nat → Nat × List Nat × Nat
  | _, 0 => (0, [], 0)
  | rc, fuel + 1 =>
    let t := navTimeoutFor rc
    match env rc with
    | .scraped e => (e, [t], 0)
    | .cloudflare => (0, [t], 0)
    | .navOther => (0, [t], 0)
    | .navTimeout =>
      if rc < 2 then
        let r := navLoop env (rc + 1) fuel
        (r.1, t :: r.2.1, r.2.2 + 1)
      else (0, [t], 0)

/-- Entry point of `process_single_business` (its loop starts at attempt 0 and,
since every iteration either exits or bumps `retry_count` past 2, three
iterations of fuel are exact). -/
def process_single_business (env : Nat → AttemptResult) : Nat × List Nat × Nat :=
  navLoop env 0 3

/-! ## Pagination loop (`scrape_all_pages`)

The per-iteration behaviour of the page environment is abstracted into the
booleans a loop iteration branches on.  Finding links only via the reload
retry changes no loop-control state (the empty-page counter is not reset on
that path and no exit is taken), so it needs no field. -/

structure PageEnv where
  valid : Bool
  links0 : Bool
  fallbackLinks : Bool
  hasNext : Bool
  navOk : Bool
  fallbackNavOk : Bool
deriving Repr, DecidableEq

inductive ExitReason where
  | pageCeiling
  | navFailures
  | emptyPages
  | nextAbsent
  | fallbackNavFailed
deriving Repr, DecidableEq

structure LoopState where
  page_num : Nat
  emptyCount : Nat
  navFailCount : Nat
  iter : Nat
deriving Repr, DecidableEq

/-- One iteration of the `while page_num <= max_pages` body of
`scrape_all_pages`: invalid page → failure counter (break at 2) else advance
without navigating; valid page → reset failure counter, handle empty links
(break at 3 consecutive; the Clutch-selector fallback resets the counter, the
reload retry does not), then the next-button check (absent/disabled → break),
then navigation (on failure the counter is bumped — it is 1, so the ≥ 2 break
cannot fire here — and the constructed-URL fallback breaks the loop itself
when it misses the expected page number or raises). -/
def loopStep (env : Nat → PageEnv) (s : LoopState) : LoopState ⊕ ExitReason :=
  let e := env s.iter
  if e.valid = false then
    let nf := s.navFailCount + 1
    if 2 ≤ nf then Sum.inr .navFailures
    else Sum.inl ⟨s.page_num + 1, s.emptyCount, nf, s.iter + 1⟩
  else
    let tail : Nat → LoopState ⊕ ExitReason := fun ec =>
      if e.hasNext = false then Sum.inr .nextAbsent
      else if e.navOk = false then
        let nf := 0 + 1
        if 2 ≤ nf then Sum.inr .navFailures
        else if e.fallbackNavOk = false then Sum.inr .fallbackNavFailed
        else Sum.inl ⟨s.page_num + 1, ec, nf, s.iter + 1⟩
      else Sum.inl ⟨s.page_num + 1, ec, 0, s.iter + 1⟩
    if e.links0 = false then
      let ec := s.emptyCount + 1
      if 3 ≤ ec then Sum.inr .emptyPages
      else if e.fallbackLinks then tail 0
      else tail ec
    else tail 0

/-- Fueled runner for the loop; the `max_pages = 100` ceiling is the `while`
condition itself. -/
def runPages (env : Nat → PageEnv) (fuel : Nat) (s : LoopState) : Option ExitReason :=
  if 100 < s.page_num then some .pageCeiling
  else
    match fuel with
    | 0 => none
    | fuel' + 1 =>
      match loopStep env s with
      | Sum.inr r => some r
      | Sum.inl s' => runPages env fuel' s'

/-- Runs `scrape_all_pages` for one start URL: page 1, all counters 0. -/
def scrape_all_pages_exit (env : Nat → PageEnv) : Option ExitReason :=
  runPages env 101 ⟨1, 0, 0, 0⟩

/-! ## Concrete fixtures used by closed theorems -/

def rowAcme : Row := ⟨"https://acme.com", "Acme", "a@b.co", ""⟩

def rowAcmeLower : Row := ⟨"https://acme.io", "acme", "", "+15551234567"⟩

def rowAcmeSpace : Row := ⟨"https://acme.dev", "Acme ", "", ""⟩

def rowBeta : Row := ⟨"https://beta.io", "Beta", "", ""⟩

/-- The name derivation exactly as claim C7 words it (for comparison with
`extract_business_name_from_url`): the *host* of the URL with a leading `www.`
label removed and everything from the first `.` onward removed, and the empty
string for a URL that cannot be parsed. -/
def nameFromHostSpec (url : String) : String :=
  match urlparseE url with
  | .error _ => ""
  | .ok p => takeBeforeDot (stripWww p.netloc)

/-- Environment whose every page is valid, has links and a next control, but
whose navigation and constructed-URL fallback both fail on the first page. -/
def envFallbackFail : Nat → PageEnv :=
  fun _ => ⟨true, true, false, true, false, false⟩

/-- Environment whose every page is invalid. -/
def envAllInvalid : Nat → PageEnv :=
  fun _ => ⟨false, false, false, false, false, false⟩

/-- Environment whose first page is fine but has no next control. -/
def envNoNext : Nat → PageEnv :=
  fun _ => ⟨true, true, false, false, true, true⟩

/-- Environment whose pages are valid but never yield links. -/
def envAllEmpty : Nat → PageEnv :=
  fun _ => ⟨true, false, false, true, true, true⟩

/-- Environment where every page succeeds and pagination never stops early. -/
def envEndless : Nat → PageEnv :=
  fun _ => ⟨true, true, false, true, true, true⟩

/-! ## Helper lemmas -/

theorem phone_checks_len10 (ds : List Char) (h10 : ds.length = 10)
    (ha : areaCodeRejected (ds.take 3) = true) :
    phone_checks false ds = false := by
  have hor : areaCodeRejectedHead (ds.take 3) = true ∨
      areaCodeRejectedRest (ds.take 3) = true := by
    simpa [areaCodeRejected, Bool.or_eq_true] using ha
  simp only [phone_checks, h10]
  norm_num
  intro _ _ _ _ _ hhf
  cases hor with
  | inl hh => rw [hhf] at hh; exact Bool.noConfusion hh
  | inr hr => exact hr

theorem phone_checks_len11 (ds : List Char) (h11 : ds.length = 11)
    (hh1 : ds.head? = some '1')
    (ha : areaCodeRejected ((ds.drop 1).take 3) = true) :
    phone_checks false ds = false := by
  have hor : areaCodeRejectedHead ((ds.drop 1).take 3) = true ∨
      areaCodeRejectedRest ((ds.drop 1).take 3) = true := by
    simpa [areaCodeRejected, Bool.or_eq_true] using ha
  simp only [phone_checks, h11, hh1]
  norm_num
  intro _ _ _ _ _ hhf
  rw [List.drop_one] at hor
  cases hor with
  | inl hh => rw [hhf] at hh; exact Bool.noConfusion hh
  | inr hr => exact hr

theorem phone_filter_of_digits (p : String) (hd : p.toList.all isAsciiDigit = true) :
    phone_filter p = p.toList := by
  unfold phone_filter
  apply List.filter_eq_self.mpr
  intro c hc
  have hcd := List.all_eq_true.mp hd c hc
  simp [hcd]

theorem cleanupAux_sublist : ∀ (l : List Row) (seen : List String),
    List.Sublist (cleanupAux seen l) l := by
  intro l
  induction l with
  | nil => intro seen; simp [cleanupAux]
  | cons r rest ih =>
    intro seen
    unfold cleanupAux
    by_cases h : cleanup_key r.business_name ∈ seen
    · rw [if_pos h]
      exact (ih seen).cons r
    · rw [if_neg h]
      exact (ih _).cons₂ r

theorem cleanupAux_countP_mem : ∀ (l : List Row) (seen : List String) (k : String),
    k ∈ seen → (cleanupAux seen l).countP (keyIs k) = 0 := by
  intro l
  induction l with
  | nil => intro seen k hk; simp [cleanupAux]
  | cons r rest ih =>
    intro seen k hk
    unfold cleanupAux
    by_cases h : cleanup_key r.business_name ∈ seen
    · rw [if_pos h]
      exact ih seen k hk
    · rw [if_neg h]
      have hne : keyIs k r = false := by
        simp only [keyIs, beq_eq_false_iff_ne, ne_eq]
        intro heq
        exact h (heq ▸ hk)
      rw [List.countP_cons, hne]
      simpa using ih _ k (List.mem_cons_of_mem _ hk)

theorem cleanupAux_countP : ∀ (l : List Row) (seen : List String) (k : String),
    k ∉ seen → (cleanupAux seen l).countP (keyIs k) = min 1 (l.countP (keyIs k)) := by
  intro l
  induction l with
  | nil => intro seen k hk; simp [cleanupAux]
  | cons r rest ih =>
    intro seen k hk
    unfold cleanupAux
    by_cases h : cleanup_key r.business_name ∈ seen
    · rw [if_pos h]
      have hne : keyIs k r = false := by
        simp only [keyIs, beq_eq_false_iff_ne, ne_eq]
        intro heq
        exact hk (heq ▸ h)
      rw [List.countP_cons, hne, ih seen k hk]
      simp
    · rw [if_neg h]
      by_cases heq : cleanup_key r.business_name = k
      · have hky : keyIs k r = true := by simp [keyIs, heq]
        rw [List.countP_cons, List.countP_cons, hky,
          cleanupAux_countP_mem rest _ k (heq ▸ List.mem_cons_self _ _)]
        simp
      · have hne : keyIs k r = false := by simp [keyIs, heq]
        rw [List.countP_cons, List.countP_cons, hne]
        have hk2 : k ∉ cleanup_key r.business_name :: seen := by
          intro hmem
          rcases List.mem_cons.mp hmem with hc | hc
          · exact heq hc.symm
          · exact hk hc
        simpa using ih _ k hk2

theorem cleanupAux_find : ∀ (l : List Row) (seen : List String) (k : String),
    k ∉ seen → (cleanupAux seen l).find? (keyIs k) = l.find? (keyIs k) := by
  intro l
  induction l with
  | nil => intro seen k hk; simp [cleanupAux]
  | cons r rest ih =>
    intro seen k hk
    unfold cleanupAux
    by_cases h : cleanup_key r.business_name ∈ seen
    · rw [if_pos h]
      have hne : keyIs k r = false := by
        simp only [keyIs, beq_eq_false_iff_ne, ne_eq]
        intro heq
        exact hk (heq ▸ h)
      rw [List.find?_cons_of_neg _ (by simp [hne]), ih seen k hk]
    · rw [if_neg h]
      by_cases heq : cleanup_key r.business_name = k
      · have hky : keyIs k r = true := by simp [keyIs, heq]
        rw [List.find?_cons_of_pos _ hky, List.find?_cons_of_pos _ hky]
      · have hne : keyIs k r = false := by simp [keyIs, heq]
        have hk2 : k ∉ cleanup_key r.business_name :: seen := by
          intro hmem
          rcases List.mem_cons.mp hmem with hc | hc
          · exact heq hc.symm
          · exact hk hc
        rw [List.find?_cons_of_neg _ (by simp [hne]), List.find?_cons_of_neg _ (by simp [hne])]
        exact ih _ k hk2

theorem loopStep_page (env : Nat → PageEnv) (s s' : LoopState)
    (h : loopStep env s = Sum.inl s') : s'.page_num = s.page_num + 1 := by
  simp only [loopStep] at h
  repeat' split at h
  all_goals cases h
  all_goals rfl

theorem runPages_always_inl (env : Nat → PageEnv)
    (hstep : ∀ t : LoopState, ∃ t', loopStep env t = Sum.inl t') :
    ∀ (fuel : Nat) (s : LoopState), (runPages env fuel s).isSome = true →
      runPages env fuel s = some .pageCeiling := by
  intro fuel
  induction fuel with
  | zero =>
    intro s hsome
    unfold runPages at hsome ⊢
    by_cases hc : 100 < s.page_num
    · rw [if_pos hc]
    · rw [if_neg hc] at hsome
      simp at hsome
  | succ fuel ih =>
    intro s hsome
    unfold runPages at hsome ⊢
    by_cases hc : 100 < s.page_num
    · rw [if_pos hc]
    · rw [if_neg hc] at hsome ⊢
      obtain ⟨t', ht⟩ := hstep s
      simp only [ht] at hsome ⊢
      exact ih t' hsome

theorem runPages_isSome (env : Nat → PageEnv) :
    ∀ (fuel : Nat) (s : LoopState), 101 ≤ s.page_num + fuel →
      (runPages env fuel s).isSome = true := by
  intro fuel
  induction fuel with
  | zero =>
    intro s h
    unfold runPages
    rw [if_pos (by omega)]
    rfl
  | succ fuel ih =>
    intro s h
    unfold runPages
    by_cases hc : 100 < s.page_num
    · rw [if_pos hc]
      rfl
    · rw [if_neg hc]
      cases hstep : loopStep env s with
      | inr r => simp [hstep]
      | inl s' =>
        simp only [hstep]
        have hpage := loopStep_page env s s' hstep
        exact ih s' (by omega)

theorem countP_set_eq {α : Type} (p : α → Bool) :
    ∀ (l : List α) (i : Nat) (a b : α), l.get? i = some b →
      (l.set i a).countP p + (if p b then 1 else 0) =
        l.countP p + (if p a then 1 else 0) := by
  intro l
  induction l with
  | nil => intro i a b h; cases h
  | cons x xs ih =>
    intro i a b h
    cases i with
    | zero =>
      simp only [List.get?] at h
      injection h with h
      subst h
      simp only [List.set, List.countP_cons]
      omega
    | succ i =>
      simp only [List.get?] at h
      simp only [List.set, List.countP_cons]
      have := ih i a b h
      omega

theorem C2Inv_step (n : String) (base : Nat) (hnb : pyStrip n ≠ "")
    (s : RunState) (i : Nat) (h : C2Inv n base s) :
    C2Inv n base (stepRun s i) := by
  obtain ⟨hname, hshape, hle, hiff, hloss, hrows⟩ := h
  unfold stepRun
  cases hget : s.tasks.get? i with
  | none => exact ⟨hname, hshape, hle, hiff, hloss, hrows⟩
  | some t =>
    have htmem : t ∈ s.tasks := List.get?_mem hget
    have htn : nameOf t = n := hname t htmem
    have hnames' : ∀ (t' : WTask), t'.url = t.url →
        ∀ u ∈ s.tasks.set i t', nameOf u = n := by
      intro t' hu u humem
      rcases List.mem_or_eq_of_mem_set humem with h' | rfl
      · exact hname u h'
      · have he : nameOf u = nameOf t := by simp [nameOf, hu]
        rw [he]
        exact htn
    show C2Inv n base { tasks := s.tasks.set i (stepTask s.sink t).1,
                        sink := (stepTask s.sink t).2 }
    rcases hshape t htmem with hpc | hpc | hpc | hpc
    · -- ready
      by_cases hmem : n ∈ s.sink.unique_businesses
      · have hstep : stepTask s.sink t = ({ t with pc := .finished 0 }, s.sink) := by
          simp [stepTask, hpc, htn, hnb, hmem]
        rw [hstep]
        simp only [C2Inv]
        have hw := countP_set_eq isWriting s.tasks i ({ t with pc := .finished 0 }) t hget
        have hv := countP_set_eq isWin s.tasks i ({ t with pc := .finished 0 }) t hget
        have hl := countP_set_eq isLoss s.tasks i ({ t with pc := .finished 0 }) t hget
        simp only [isWriting, isWin, isLoss, hpc] at hw hv hl
        simp at hw hv hl
        refine ⟨hnames' _ rfl, ?_, ?_, ?_, ?_, ?_⟩
        · intro u humem
          rcases List.mem_or_eq_of_mem_set humem with h' | rfl
          · exact hshape u h'
          · exact Or.inr (Or.inr (Or.inl rfl))
        · omega
        · constructor
          · intro hm
            have h1 := hiff.mp hm
            omega
          · intro _
            exact hmem
        · intro _
          exact hmem
        · omega
      · have hstep : stepTask s.sink t = ({ t with pc := .writing },
            { s.sink with unique_businesses := n :: s.sink.unique_businesses }) := by
          simp [stepTask, hpc, htn, hnb, hmem]
        rw [hstep]
        simp only [C2Inv]
        have hw := countP_set_eq isWriting s.tasks i ({ t with pc := .writing }) t hget
        have hv := countP_set_eq isWin s.tasks i ({ t with pc := .writing }) t hget
        have hl := countP_set_eq isLoss s.tasks i ({ t with pc := .writing }) t hget
        simp only [isWriting, isWin, isLoss, hpc] at hw hv hl
        simp at hw hv hl
        have hsum0 : s.tasks.countP isWriting + s.tasks.countP isWin = 0 := by
          by_contra hc
          exact hmem (hiff.mpr (by omega))
        refine ⟨hnames' _ rfl, ?_, ?_, ?_, ?_, ?_⟩
        · intro u humem
          rcases List.mem_or_eq_of_mem_set humem with h' | rfl
          · exact hshape u h'
          · exact Or.inr (Or.inl rfl)
        · omega
        · constructor
          · intro _
            omega
          · intro _
            exact List.mem_cons_self n _
        · intro _
          exact List.mem_cons_self n _
        · omega
    · -- writing
      have hstep : stepTask s.sink t = ({ t with pc := .finished 1 },
          { s.sink with rows := s.sink.rows ++
            [⟨clean_url t.url, extract_business_name_from_url (clean_url t.url),
              t.email, t.phone⟩] }) := by
        simp [stepTask, hpc]
      rw [hstep]
      simp only [C2Inv]
      have hw := countP_set_eq isWriting s.tasks i ({ t with pc := .finished 1 }) t hget
      have hv := countP_set_eq isWin s.tasks i ({ t with pc := .finished 1 }) t hget
      have hl := countP_set_eq isLoss s.tasks i ({ t with pc := .finished 1 }) t hget
      simp only [isWriting, isWin, isLoss, hpc] at hw hv hl
      simp at hw hv hl
      refine ⟨hnames' _ rfl, ?_, ?_, ?_, ?_, ?_⟩
      · intro u humem
        rcases List.mem_or_eq_of_mem_set humem with h' | rfl
        · exact hshape u h'
        · exact Or.inr (Or.inr (Or.inr rfl))
      · omega
      · constructor
        · intro hm
          have h1 := hiff.mp hm
          omega
        · intro hs
          exact hiff.mpr (by omega)
      · intro h1
        exact hloss (by omega)
      · simp only [List.length_append, List.length_cons, List.length_nil]
        omega
    · -- finished 0
      have hstep : stepTask s.sink t = (t, s.sink) := by
        simp [stepTask, hpc]
      rw [hstep]
      simp only [C2Inv]
      have hw := countP_set_eq isWriting s.tasks i t t hget
      have hv := countP_set_eq isWin s.tasks i t t hget
      have hl := countP_set_eq isLoss s.tasks i t t hget
      refine ⟨hnames' _ rfl, ?_, ?_, ?_, ?_, ?_⟩
      · intro u humem
        rcases List.mem_or_eq_of_mem_set humem with h' | heq
        · exact hshape u h'
        · subst heq
          exact hshape u htmem
      · omega
      · constructor
        · intro hm
          have h1 := hiff.mp hm
          omega
        · intro hs
          exact hiff.mpr (by omega)
      · intro h1
        exact hloss (by omega)
      · omega
    · -- finished 1
      have hstep : stepTask s.sink t = (t, s.sink) := by
        simp [stepTask, hpc]
      rw [hstep]
      simp only [C2Inv]
      have hw := countP_set_eq isWriting s.tasks i t t hget
      have hv := countP_set_eq isWin s.tasks i t t hget
      have hl := countP_set_eq isLoss s.tasks i t t hget
      refine ⟨hnames' _ rfl, ?_, ?_, ?_, ?_, ?_⟩
      · intro u humem
        rcases List.mem_or_eq_of_mem_set humem with h' | heq
        · exact hshape u h'
        · subst heq
          exact hshape u htmem
      · omega
      · constructor
        · intro hm
          have h1 := hiff.mp hm
          omega
        · intro hs
          exact hiff.mpr (by omega)
      · intro h1
        exact hloss (by omega)
      · omega

theorem execRun_inv (n : String) (base : Nat) (hnb : pyStrip n ≠ "") :
    ∀ (sched : List Nat) (s : RunState),
      C2Inv n base s → C2Inv n base (execRun s sched) := by
  intro sched
  induction sched with
  | nil => intro s h; exact h
  | cons i rest ih =>
    intro s h
    show C2Inv n base (execRun (stepRun s i) rest)
    exact ih (stepRun s i) (C2Inv_step n base hnb s i h)

theorem execRun_tasks_length : ∀ (sched : List Nat) (s : RunState),
    (execRun s sched).tasks.length = s.tasks.length := by
  intro sched
  induction sched with
  | nil => intro s; rfl
  | cons i rest ih =>
    intro s
    show (execRun (stepRun s i) rest).tasks.length = _
    rw [ih]
    unfold stepRun
    cases hget : s.tasks.get? i with
    | none => rfl
    | some t => exact List.length_set s.tasks i _

theorem C2Inv_init (n : String) (tasks : List WTask) (sink : SinkState)
    (hready : ∀ t ∈ tasks, t.pc = .ready)
    (hnames : ∀ t ∈ tasks, nameOf t = n)
    (hfresh : n ∉ sink.unique_businesses) :
    C2Inv n sink.rows.length ⟨tasks, sink⟩ := by
  have hw : tasks.countP isWriting = 0 :=
    List.countP_eq_zero.mpr (fun t ht => by simp [isWriting, hready t ht])
  have hv : tasks.countP isWin = 0 :=
    List.countP_eq_zero.mpr (fun t ht => by simp [isWin, hready t ht])
  have hl : tasks.countP isLoss = 0 :=
    List.countP_eq_zero.mpr (fun t ht => by simp [isLoss, hready t ht])
  refine ⟨hnames, fun t ht => Or.inl (hready t ht), by rw [hw, hv]; omega, ?_, ?_, ?_⟩
  · constructor
    · intro hm
      exact absurd hm hfresh
    · intro hs
      rw [hw, hv] at hs
      exact absurd hs (by omega)
  · intro hs
    rw [hl] at hs
    exact absurd hs (by omega)
  · simp only []
    rw [hv]
    omega

theorem countP_win_loss : ∀ (l : List WTask),
    (∀ t ∈ l, isDone t = true) →
    (∀ t ∈ l, t.pc = .ready ∨ t.pc = .writing ∨
      t.pc = .finished 0 ∨ t.pc = .finished 1) →
    l.countP isWin + l.countP isLoss = l.length := by
  intro l
  induction l with
  | nil => intro _ _; rfl
  | cons t rest ih =>
    intro hd hs
    have hdt := hd t (List.mem_cons_self _ _)
    have ihr := ih (fun u hu => hd u (List.mem_cons_of_mem _ hu))
      (fun u hu => hs u (List.mem_cons_of_mem _ hu))
    rcases hs t (List.mem_cons_self _ _) with hpc | hpc | hpc | hpc
    · simp [isDone, hpc] at hdt
    · simp [isDone, hpc] at hdt
    · simp only [List.countP_cons, List.length_cons]
      simp [isWin, isLoss, hpc]
      omega
    · simp only [List.countP_cons, List.length_cons]
      simp [isWin, isLoss, hpc]
      omega

/-! ## Claim theorems -/

/-- C5: `is_valid_email` returns `false` for every candidate that contains a
denylisted marker case-insensitively, and for every candidate whose local part
(before the first `@`) has length ≥ 32 or has length ≥ 8 and consists
entirely of hexadecimal characters. -/
theorem c5_email_denylist_and_opaque_local (e : String)
    (h : invalid_email_patterns.any (fun p => containsSub (pyLower e) p) = true ∨
         32 ≤ (email_local_part e).length ∨
         (8 ≤ (email_local_part e).length ∧
          ((pyLower (email_local_part e)).toList.all isHexLowerChar) = true)) :
    is_valid_email e = false := by
  unfold is_valid_email
  split
  · rfl
  · split
    · rfl
    · rename_i hp
      rcases h with hpat | h32 | ⟨h8, hhex⟩
      · exact absurd hpat hp
      · split
        · rfl
        · rename_i hc
          exact absurd (by simp [h32]) hc
      · split
        · rfl
        · rename_i hc
          have hhex' := List.all_eq_true.mp hhex
          exact absurd (by simp [h8]; exact Or.inr hhex') hc

/-- Witness for C5 at `"admin@acme.com"` (denylist hit) — the theorem applies
and the validator indeed rejects it. -/
theorem c5_email_denylist_and_opaque_local_witness :
    is_valid_email "admin@acme.com" = false :=
  c5_email_denylist_and_opaque_local "admin@acme.com" (Or.inl (by decide))

/-- C6: `is_valid_phone` returns `false` for every 10-digit all-numeric
candidate (and every 11-digit all-numeric candidate with leading `1`) whose
3-digit area code starts with `0` or `1`, has the form `X00`/`X11`, or equals
`123`. -/
theorem c6_phone_area_code (p : String)
    (hd : p.toList.all isAsciiDigit = true)
    (h : (p.toList.length = 10 ∧ areaCodeRejected (p.toList.take 3) = true) ∨
         (p.toList.length = 11 ∧ p.toList.head? = some '1' ∧
          areaCodeRejected ((p.toList.drop 1).take 3) = true)) :
    is_valid_phone p = false := by
  have hlen : p.toList.length = 10 ∨ p.toList.length = 11 := by
    rcases h with ⟨h10, _⟩ | ⟨h11, _, _⟩
    · exact Or.inl h10
    · exact Or.inr h11
  have hne : p ≠ "" := by
    intro he
    subst he
    simp at hlen
  have hfil : phone_filter p = p.toList := phone_filter_of_digits p hd
  have hplus : (p.toList.head? == some '+') = false := by
    cases hl : p.toList with
    | nil => simp
    | cons c rest =>
      have hcd : isAsciiDigit c = true :=
        List.all_eq_true.mp hd c (by rw [hl]; exact List.mem_cons_self c rest)
      have hcp : c ≠ '+' := by
        intro hcp
        subst hcp
        simp [isAsciiDigit] at hcd
      simp [hcp]
  unfold is_valid_phone
  rw [if_neg hne]
  simp only [hfil, hplus, Bool.false_eq_true, if_false]
  rcases h with ⟨h10, ha⟩ | ⟨h11, hh, ha⟩
  · exact phone_checks_len10 p.toList h10 ha
  · exact phone_checks_len11 p.toList h11 hh ha

/-- Witness for C6 at `"0555123456"` (area code starting with `0`) — the
theorem applies and the validator indeed rejects it. -/
theorem c6_phone_area_code_witness :
    is_valid_phone "0555123456" = false :=
  c6_phone_area_code "0555123456" (by decide) (Or.inl (by decide))

/-- Counterexample to C1: the candidates resolved at `https://acme.com` and
`https://acme.io` have different cleaned URLs but the same display-name slug
`acme`; persisting both writes only one row — the second is suppressed by the
name-keyed skip in `scrape_business_info`, so persist-time dedup is not keyed
on the cleaned URL. -/
theorem c1_url_keyed_dedup_cex :
    clean_url "https://acme.com" ≠ clean_url "https://acme.io" ∧
    extract_business_name_from_url (clean_url "https://acme.io") =
      extract_business_name_from_url (clean_url "https://acme.com") ∧
    (scrape_business_info "https://acme.com" [] [] ⟨[], []⟩).1 = 1 ∧
    (scrape_business_info "https://acme.io" [] []
      (scrape_business_info "https://acme.com" [] [] ⟨[], []⟩).2).1 = 0 ∧
    (scrape_business_info "https://acme.io" [] []
      (scrape_business_info "https://acme.com" [] [] ⟨[], []⟩).2).2.rows =
      (scrape_business_info "https://acme.com" [] [] ⟨[], []⟩).2.rows := by
  decide

/-- C1 (amended): persist-time deduplication is keyed on the display-name slug
derived from the cleaned URL, not on the cleaned URL itself.  For two fresh,
non-blank candidates: the first always persists; the second persists exactly
when its slug differs from that of the first — when the slugs coincide the second is
skipped with no row written, even if the cleaned URLs differ. -/
theorem c1_name_keyed_dedup (u1 u2 : String) (e1 p1 e2 p2 : List String)
    (st : SinkState)
    (hnb1 : pyStrip (extract_business_name_from_url (clean_url u1)) ≠ "")
    (hnb2 : pyStrip (extract_business_name_from_url (clean_url u2)) ≠ "")
    (hf1 : extract_business_name_from_url (clean_url u1) ∉ st.unique_businesses)
    (hf2 : extract_business_name_from_url (clean_url u2) ∉ st.unique_businesses) :
    (scrape_business_info u1 e1 p1 st).1 = 1 ∧
    (extract_business_name_from_url (clean_url u2) =
        extract_business_name_from_url (clean_url u1) →
      (scrape_business_info u2 e2 p2 (scrape_business_info u1 e1 p1 st).2).1 = 0 ∧
      (scrape_business_info u2 e2 p2 (scrape_business_info u1 e1 p1 st).2).2.rows =
        (scrape_business_info u1 e1 p1 st).2.rows) ∧
    (extract_business_name_from_url (clean_url u2) ≠
        extract_business_name_from_url (clean_url u1) →
      (scrape_business_info u2 e2 p2 (scrape_business_info u1 e1 p1 st).2).1 = 1 ∧
      (scrape_business_info u2 e2 p2 (scrape_business_info u1 e1 p1 st).2).2.rows =
        (scrape_business_info u1 e1 p1 st).2.rows ++
          [⟨clean_url u2, extract_business_name_from_url (clean_url u2),
            (e2.head?).getD "", (p2.head?).getD ""⟩]) := by
  simp only [scrape_business_info, scrape_business_info_exc]
  simp [hnb1, hnb2, hf1, hf2]
  constructor
  · intro heq
    simp [heq]
  · intro hne
    simp [hne]

/-- Witness for the amended C1 at `https://acme.com` / `https://beta.io`
(distinct slugs, both persisted) starting from the empty run state. -/
theorem c1_name_keyed_dedup_witness :
    (scrape_business_info "https://acme.com" [] [] ⟨[], []⟩).1 = 1 ∧
    (extract_business_name_from_url (clean_url "https://beta.io") =
        extract_business_name_from_url (clean_url "https://acme.com") →
      (scrape_business_info "https://beta.io" [] []
        (scrape_business_info "https://acme.com" [] [] ⟨[], []⟩).2).1 = 0 ∧
      (scrape_business_info "https://beta.io" [] []
        (scrape_business_info "https://acme.com" [] [] ⟨[], []⟩).2).2.rows =
        (scrape_business_info "https://acme.com" [] [] ⟨[], []⟩).2.rows) ∧
    (extract_business_name_from_url (clean_url "https://beta.io") ≠
        extract_business_name_from_url (clean_url "https://acme.com") →
      (scrape_business_info "https://beta.io" [] []
        (scrape_business_info "https://acme.com" [] [] ⟨[], []⟩).2).1 = 1 ∧
      (scrape_business_info "https://beta.io" [] []
        (scrape_business_info "https://acme.com" [] [] ⟨[], []⟩).2).2.rows =
        (scrape_business_info "https://acme.com" [] [] ⟨[], []⟩).2.rows ++
          [⟨clean_url "https://beta.io",
            extract_business_name_from_url (clean_url "https://beta.io"),
            (([] : List String).head?).getD "", (([] : List String).head?).getD ""⟩]) :=
  c1_name_keyed_dedup "https://acme.com" "https://beta.io" [] [] [] [] ⟨[], []⟩
    (by decide) (by decide) (by decide) (by decide)

/-- C3: persisting is idempotent on the dedup key — for two candidates sharing
the same cleaned URL (hence the same derived key), starting from a state
where the key is fresh and non-blank, the first call appends exactly one row
and the second call finds the key present and changes nothing. -/
theorem c3_persist_idempotent (u1 u2 : String) (e1 p1 e2 p2 : List String)
    (st : SinkState)
    (hcu : clean_url u1 = clean_url u2)
    (hnb : pyStrip (extract_business_name_from_url (clean_url u1)) ≠ "")
    (hfresh : extract_business_name_from_url (clean_url u1) ∉ st.unique_businesses) :
    (scrape_business_info u1 e1 p1 st).1 = 1 ∧
    (scrape_business_info u1 e1 p1 st).2.rows =
      st.rows ++ [⟨clean_url u1, extract_business_name_from_url (clean_url u1),
                   (e1.head?).getD "", (p1.head?).getD ""⟩] ∧
    (scrape_business_info u2 e2 p2 (scrape_business_info u1 e1 p1 st).2).1 = 0 ∧
    (scrape_business_info u2 e2 p2 (scrape_business_info u1 e1 p1 st).2).2 =
      (scrape_business_info u1 e1 p1 st).2 := by
  simp only [scrape_business_info, scrape_business_info_exc]
  rw [← hcu]
  simp [hnb, hfresh]

/-- Witness for C3 at the identical URL `https://acme.com` from the empty run
state: one row in total, the second call a no-op. -/
theorem c3_persist_idempotent_witness :
    (scrape_business_info "https://acme.com" ["a@b.co"] [] ⟨[], []⟩).1 = 1 ∧
    (scrape_business_info "https://acme.com" ["a@b.co"] [] ⟨[], []⟩).2.rows =
      ([] : List Row) ++ [⟨clean_url "https://acme.com",
        extract_business_name_from_url (clean_url "https://acme.com"),
        ((["a@b.co"] : List String).head?).getD "", (([] : List String).head?).getD ""⟩] ∧
    (scrape_business_info "https://acme.com" [] []
      (scrape_business_info "https://acme.com" ["a@b.co"] [] ⟨[], []⟩).2).1 = 0 ∧
    (scrape_business_info "https://acme.com" [] []
      (scrape_business_info "https://acme.com" ["a@b.co"] [] ⟨[], []⟩).2).2 =
      (scrape_business_info "https://acme.com" ["a@b.co"] [] ⟨[], []⟩).2 :=
  c3_persist_idempotent "https://acme.com" "https://acme.com" ["a@b.co"] [] [] []
    ⟨[], []⟩ rfl (by decide) (by decide)

/-- C10: the persist operation inserts the dedup key before extracting
contacts and writing the row; if extraction then raises, the call returns 0,
the key stays in the run-scoped dedup set while no row was written, keys are never
removed by any later persist call, and every later candidate deriving the
same key is rejected without writing. -/
theorem c10_key_not_rolled_back (u : String) (e p : List String) (st : SinkState)
    (hnb : pyStrip (extract_business_name_from_url (clean_url u)) ≠ "")
    (hfresh : extract_business_name_from_url (clean_url u) ∉ st.unique_businesses) :
    (scrape_business_info_exc u e p true st).1 = 0 ∧
    extract_business_name_from_url (clean_url u) ∈
      (scrape_business_info_exc u e p true st).2.unique_businesses ∧
    (scrape_business_info_exc u e p true st).2.rows = st.rows ∧
    (∀ u2 e2 p2 b2 (st2 : SinkState),
      extract_business_name_from_url (clean_url u2) =
        extract_business_name_from_url (clean_url u) →
      extract_business_name_from_url (clean_url u) ∈ st2.unique_businesses →
      scrape_business_info_exc u2 e2 p2 b2 st2 = (0, st2)) ∧
    (∀ u2 e2 p2 b2 (st2 : SinkState) (x : String),
      x ∈ st2.unique_businesses →
      x ∈ (scrape_business_info_exc u2 e2 p2 b2 st2).2.unique_businesses) := by
  refine ⟨?_, ?_, ?_, ?_, ?_⟩
  · simp [scrape_business_info_exc, hnb, hfresh]
  · simp [scrape_business_info_exc, hnb, hfresh]
  · simp [scrape_business_info_exc, hnb, hfresh]
  · intro u2 e2 p2 b2 st2 hname hmem
    simp [scrape_business_info_exc, hname, hmem]
  · intro u2 e2 p2 b2 st2 x hx
    by_cases h1 : pyStrip (extract_business_name_from_url (clean_url u2)) = ""
    · simp [scrape_business_info_exc, h1, hx]
    · by_cases h2 : extract_business_name_from_url (clean_url u2) ∈ st2.unique_businesses
      · simp [scrape_business_info_exc, h1, h2, hx]
      · by_cases h3 : b2 = true
        · simp [scrape_business_info_exc, h1, h2, h3, hx]
        · simp [scrape_business_info_exc, h1, h2, h3, hx]

/-- Counterexample to C7: for the host-less URL `acme.com/x` the code derives
`acme` from the *path* while the host-based derivation of the claim yields
`""`; and for the unparsable `http://[` the code returns the input URL
itself, not the empty string. -/
theorem c7_name_from_host_cex :
    extract_business_name_from_url "acme.com/x" = "acme" ∧
    nameFromHostSpec "acme.com/x" = "" ∧
    extract_business_name_from_url "http://[" = "http://[" ∧
    nameFromHostSpec "http://[" = "" := by
  decide

/-- C7 (amended): for a parsable non-empty URL the derived name is the host
— or, when the host is empty, the path — with a leading `www.` stripped and
everything from the first `.` removed; an unparsable URL is returned
unchanged; the empty URL yields `""`; the docstring example
`https://Syndr.ai ↦ Syndr` holds. -/
theorem c7_name_derivation (url : String) (p : UrlParts)
    (hp : urlparseE url = .ok p) (hne : url ≠ "") :
    extract_business_name_from_url url =
      takeBeforeDot (stripWww (if p.netloc ≠ "" then p.netloc else p.path)) ∧
    (∀ u, urlparseE u = .error () → u ≠ "" → extract_business_name_from_url u = u) ∧
    extract_business_name_from_url "" = "" ∧
    extract_business_name_from_url "https://Syndr.ai" = "Syndr" := by
  refine ⟨?_, ?_, rfl, by decide⟩
  · unfold extract_business_name_from_url
    rw [if_neg hne, hp]
  · intro u hu hune
    unfold extract_business_name_from_url
    rw [if_neg hune, hu]

/-- Witness for the amended C7 at `https://Syndr.ai`. -/
theorem c7_name_derivation_witness :
    extract_business_name_from_url "https://Syndr.ai" =
      takeBeforeDot (stripWww
        (if (⟨"https", "Syndr.ai", "", "", "", ""⟩ : UrlParts).netloc ≠ ""
         then (⟨"https", "Syndr.ai", "", "", "", ""⟩ : UrlParts).netloc
         else (⟨"https", "Syndr.ai", "", "", "", ""⟩ : UrlParts).path)) :=
  (c7_name_derivation "https://Syndr.ai" ⟨"https", "Syndr.ai", "", "", "", ""⟩
    rfl (by decide)).1

/-- C8: a timeout-classified navigation failure is retried up to 2 more
times, each retry with the raised 45000 ms timeout (initial 30000 ms) and
preceded by one backoff sleep; exhausting the budget surfaces the entity as a
skip (0 entries); a non-timeout navigation failure ends the attempt at once
with no retry. -/
theorem c8_retry_policy (env : Nat → AttemptResult) :
    1 ≤ (process_single_business env).2.1.length ∧
    (process_single_business env).2.1.length ≤ 3 ∧
    (process_single_business env).2.1.head? = some 30000 ∧
    (∀ t ∈ (process_single_business env).2.1.tail, t = 45000) ∧
    (process_single_business env).2.2 + 1 = (process_single_business env).2.1.length ∧
    (env 0 = .navTimeout → env 1 = .navTimeout → env 2 = .navTimeout →
      (process_single_business env).1 = 0 ∧
      (process_single_business env).2.1 = [30000, 45000, 45000]) ∧
    (env 0 = .navOther →
      (process_single_business env).2.1.length = 1 ∧
      (process_single_business env).1 = 0) ∧
    (env 0 = .navTimeout → env 1 = .navOther →
      (process_single_business env).2.1.length = 2 ∧
      (process_single_business env).1 = 0) := by
  cases h0 : env 0 <;> cases h1 : env 1 <;> cases h2 : env 2 <;>
    simp [process_single_business, navLoop, navTimeoutFor, h0, h1, h2]

/-- Witness for C8: with every attempt timing out, the run uses timeouts
`[30000, 45000, 45000]` and ends as a skip. -/
theorem c8_retry_policy_witness :
    (process_single_business (fun _ => .navTimeout)).1 = 0 ∧
    (process_single_business (fun _ => .navTimeout)).2.1 = [30000, 45000, 45000] :=
  (c8_retry_policy (fun _ => .navTimeout)).2.2.2.2.2.1 rfl rfl rfl

/-- Counterexample to the mutual-exclusion conjunct of C2: in the interleaving
`[0, 1, 1, 0]` the `acme` worker runs its check-and-insert first (its key sits
at the bottom of the dedup list), then the `beta` worker executes its *entire*
persist — check-and-insert and row append — before the row append of the
`acme` worker runs, so its row lands first.  Under a single mutual-exclusion boundary
around the whole persist operation no other persist could interleave between
the check-and-insert of one worker and its row append. -/
theorem c2_serialization_cex :
    (execRun ⟨[⟨"https://acme.com", "a@b.co", "", .ready⟩,
               ⟨"https://beta.io", "", "+15551234567", .ready⟩], ⟨[], []⟩⟩
        [0, 1, 1, 0]).sink.unique_businesses = ["beta", "acme"] ∧
    (execRun ⟨[⟨"https://acme.com", "a@b.co", "", .ready⟩,
               ⟨"https://beta.io", "", "+15551234567", .ready⟩], ⟨[], []⟩⟩
        [0, 1, 1, 0]).sink.rows =
      [⟨"https://beta.io", "beta", "", "+15551234567"⟩,
       ⟨"https://acme.com", "acme", "a@b.co", ""⟩] := by
  decide

/-- C2 (amended): for every key, N concurrent persist attempts with that key
yield exactly one winner (one row appended) and N−1 rejections under *every*
interleaving of the atomic worker segments — guaranteed because the
check-and-insert runs without an intervening suspension point on the event
loop, not because a mutual-exclusion boundary encloses the whole persist (the
row append sits in a later atomic segment). -/
theorem c2_one_winner (tasks : List WTask) (sink : SinkState) (sched : List Nat)
    (n : String)
    (hne : tasks ≠ [])
    (hready : ∀ t ∈ tasks, t.pc = .ready)
    (hnames : ∀ t ∈ tasks, nameOf t = n)
    (hnb : pyStrip n ≠ "")
    (hfresh : n ∉ sink.unique_businesses)
    (hdone : (execRun ⟨tasks, sink⟩ sched).tasks.all isDone = true) :
    (execRun ⟨tasks, sink⟩ sched).tasks.countP isWin = 1 ∧
    (execRun ⟨tasks, sink⟩ sched).tasks.countP isLoss = tasks.length - 1 ∧
    (execRun ⟨tasks, sink⟩ sched).sink.rows.length = sink.rows.length + 1 := by
  have hinv := execRun_inv n sink.rows.length hnb sched ⟨tasks, sink⟩
    (C2Inv_init n tasks sink hready hnames hfresh)
  obtain ⟨hname2, hshape2, hle2, hiff2, hloss2, hrows2⟩ := hinv
  have hlen : (execRun ⟨tasks, sink⟩ sched).tasks.length = tasks.length :=
    execRun_tasks_length sched ⟨tasks, sink⟩
  have hdone' : ∀ t ∈ (execRun ⟨tasks, sink⟩ sched).tasks, isDone t = true :=
    List.all_eq_true.mp hdone
  have hwr : (execRun ⟨tasks, sink⟩ sched).tasks.countP isWriting = 0 := by
    apply List.countP_eq_zero.mpr
    intro t ht
    have hd := hdone' t ht
    rcases hshape2 t ht with hpc | hpc | hpc | hpc
    · simp [isDone, hpc] at hd
    · simp [isDone, hpc] at hd
    · simp [isWriting, hpc]
    · simp [isWriting, hpc]
  have hsplit := countP_win_loss (execRun ⟨tasks, sink⟩ sched).tasks hdone' hshape2
  have hlen1 : 1 ≤ tasks.length := by
    cases hcl : tasks with
    | nil => exact absurd hcl hne
    | cons a l => simp [hcl]
  by_cases hmem : n ∈ (execRun ⟨tasks, sink⟩ sched).sink.unique_businesses
  · have h1 := hiff2.mp hmem
    refine ⟨by omega, by omega, by omega⟩
  · have h0 : (execRun ⟨tasks, sink⟩ sched).tasks.countP isWriting +
        (execRun ⟨tasks, sink⟩ sched).tasks.countP isWin = 0 := by
      by_contra hc
      exact hmem (hiff2.mpr (by omega))
    have hl0 : (execRun ⟨tasks, sink⟩ sched).tasks.countP isLoss = 0 := by
      by_contra hc
      exact hmem (hloss2 (by omega))
    exact absurd rfl (by omega : ¬ (0 : Nat) = 0)

/-- Witness for the amended C2: three workers racing on the key `acme` under
the interleaving `[0, 1, 2, 0]` produce exactly one winner, two rejections
and one appended row. -/
theorem c2_one_winner_witness :
    (execRun ⟨[⟨"https://acme.com", "", "", .ready⟩,
               ⟨"https://acme.io", "", "", .ready⟩,
               ⟨"https://acme.dev", "", "", .ready⟩], ⟨[], []⟩⟩
        [0, 1, 2, 0]).tasks.countP isWin = 1 ∧
    (execRun ⟨[⟨"https://acme.com", "", "", .ready⟩,
               ⟨"https://acme.io", "", "", .ready⟩,
               ⟨"https://acme.dev", "", "", .ready⟩], ⟨[], []⟩⟩
        [0, 1, 2, 0]).tasks.countP isLoss =
      ([⟨"https://acme.com", "", "", .ready⟩,
        ⟨"https://acme.io", "", "", .ready⟩,
        ⟨"https://acme.dev", "", "", .ready⟩] : List WTask).length - 1 ∧
    (execRun ⟨[⟨"https://acme.com", "", "", .ready⟩,
               ⟨"https://acme.io", "", "", .ready⟩,
               ⟨"https://acme.dev", "", "", .ready⟩], ⟨[], []⟩⟩
        [0, 1, 2, 0]).sink.rows.length = (⟨[], []⟩ : SinkState).rows.length + 1 :=
  c2_one_winner
    [⟨"https://acme.com", "", "", .ready⟩,
     ⟨"https://acme.io", "", "", .ready⟩,
     ⟨"https://acme.dev", "", "", .ready⟩] ⟨[], []⟩ [0, 1, 2, 0] "acme"
    (by decide) (by decide) (by decide) (by decide) (by decide) (by decide)

/-- Counterexample to C9: with every page valid, linked and owning a next
control, a single failed navigation whose constructed-URL fallback also fails
ends the loop — at a navigation-failure counter of 1 — so the four listed
conditions are not the only ways the loop terminates. -/
theorem c9_termination_conditions_cex :
    scrape_all_pages_exit envFallbackFail = some .fallbackNavFailed ∧
    ExitReason.fallbackNavFailed ≠ .pageCeiling ∧
    ExitReason.fallbackNavFailed ≠ .navFailures ∧
    ExitReason.fallbackNavFailed ≠ .emptyPages ∧
    ExitReason.fallbackNavFailed ≠ .nextAbsent := by
  decide

/-- C9 (amended): for every start URL the pagination loop terminates, via the
100-page ceiling, the navigation-failure counter reaching 2, the empty-page
counter reaching 3, an absent/disabled next control, or the extra exit where
the direct-URL fallback after a navigation failure also fails; each of the four
claimed exits is reachable, as the named environments show. -/
theorem c9_pagination_terminates :
    (∀ env, (scrape_all_pages_exit env).isSome = true) ∧
    scrape_all_pages_exit envAllInvalid = some .navFailures ∧
    scrape_all_pages_exit envAllEmpty = some .emptyPages ∧
    scrape_all_pages_exit envNoNext = some .nextAbsent ∧
    scrape_all_pages_exit envEndless = some .pageCeiling := by
  refine ⟨fun env => runPages_isSome env 101 ⟨1, 0, 0, 0⟩ (by omega),
    by decide, by decide, by decide, ?_⟩
  exact runPages_always_inl envEndless
    (fun t => ⟨⟨t.page_num + 1, 0, 0, t.iter + 1⟩, rfl⟩) 101 ⟨1, 0, 0, 0⟩
    (runPages_isSome envEndless 101 ⟨1, 0, 0, 0⟩ (by omega))

/-- Counterexample to C4: compaction keys on the lower-cased *and
whitespace-stripped* display name, not on the case-insensitive name alone —
the rows `("Acme", …), ("Acme ", …)` have case-insensitively distinct display
names, yet the later one is removed. -/
theorem c4_compaction_cex :
    cleanup_csv_duplicates [rowAcme, rowAcmeSpace] = [rowAcme] ∧
    pyLower rowAcmeSpace.business_name ≠ pyLower rowAcme.business_name := by
  decide

/-- C4 (amended): the end-of-run compaction keeps exactly the first row for
each lower-cased-and-stripped display name: its output is a subsequence of
the input, contains exactly one row per key present in the input (none for
absent keys), that row being the first of the input with the key; on
`[("Acme",…), ("acme",…), ("Beta",…)]` it yields exactly the 2 rows keeping
the first `"Acme"` occurrence. -/
theorem c4_compaction_first_per_key (l : List Row) (k : String) :
    List.Sublist (cleanup_csv_duplicates l) l ∧
    (cleanup_csv_duplicates l).countP (keyIs k) = min 1 (l.countP (keyIs k)) ∧
    (cleanup_csv_duplicates l).find? (keyIs k) = l.find? (keyIs k) ∧
    cleanup_csv_duplicates [rowAcme, rowAcmeLower, rowBeta] = [rowAcme, rowBeta] := by
  refine ⟨cleanupAux_sublist l [], cleanupAux_countP l [] k (by simp),
    cleanupAux_find l [] k (by simp), by decide⟩

/-- Witness for C10 at `https://acme.com` with a raising extraction from the
empty run state, followed by a retry of the same candidate. -/
theorem c10_key_not_rolled_back_witness :
    (scrape_business_info_exc "https://acme.com" [] [] true ⟨[], []⟩).1 = 0 ∧
    extract_business_name_from_url (clean_url "https://acme.com") ∈
      (scrape_business_info_exc "https://acme.com" [] [] true ⟨[], []⟩).2.unique_businesses ∧
    (scrape_business_info_exc "https://acme.com" [] [] true ⟨[], []⟩).2.rows =
      (⟨[], []⟩ : SinkState).rows ∧
    (∀ u2 e2 p2 b2 (st2 : SinkState),
      extract_business_name_from_url (clean_url u2) =
        extract_business_name_from_url (clean_url "https://acme.com") →
      extract_business_name_from_url (clean_url "https://acme.com") ∈ st2.unique_businesses →
      scrape_business_info_exc u2 e2 p2 b2 st2 = (0, st2)) ∧
    (∀ u2 e2 p2 b2 (st2 : SinkState) (x : String),
      x ∈ st2.unique_businesses →
      x ∈ (scrape_business_info_exc u2 e2 p2 b2 st2).2.unique_businesses) :=
  c10_key_not_rolled_back "https://acme.com" [] [] ⟨[], []⟩ (by decide) (by decide)

end Scraper
